import Mathlib

/-!
Shallow embedding of the yakstack multi-stack task store
(`src/commands.rs`, `src/main.rs`, `src/errors.rs`): stacks, tasks and
reminders persisted in SQLite tables, together with the sequencer and
scheduler operations over them.  Each operation is translated from the
SQL statements the Rust source executes; signed `task_order` columns
become `Int`, row sets become `List`s kept in insertion order, and the
`rusqlite` error plumbing becomes `Except AppError`.
-/

namespace Yakstack

/-- A row of the `tasks` table:
`tasks(task TEXT NOT NULL, task_order INTEGER NOT NULL, id INTEGER PRIMARY KEY, stack_id INTEGER NOT NULL)`. -/
structure Task where
  id : Nat
  task : String
  task_order : Int
  stack_id : Nat
deriving DecidableEq

/-- A row of the `stacks` table: `stacks(id INTEGER PRIMARY KEY, name TEXT NOT NULL, UNIQUE(name))`. -/
structure Stack where
  id : Nat
  name : String
deriving DecidableEq

/-- A row of the `reminders` table: `reminders(id, delay, task_id)` (`remind_me` inserts
a UUID string id, a delay in seconds and the owning task's id). -/
structure Reminder where
  id : String
  delay : Nat
  task_id : Nat
deriving DecidableEq

/-- The persisted store.  `stack_rows` is the `stacks` table (the name `stacks` is a
reserved token here); `app_stack_id` is the single row of `app_state(stack_id)`;
`next_task_id` models SQLite's fresh `INTEGER PRIMARY KEY` assignment for `tasks`. -/
structure Store where
  stack_rows : List Stack
  tasks : List Task
  reminders : List Reminder
  app_stack_id : Nat
  next_task_id : Nat
deriving DecidableEq

/-- `StackError` from `errors.rs`. -/
inductive StackError where
  | NoSuchStack (name : String)
  | StackAlreadyExists (name : String)
  | CantDeleteDefaultStack
  | CantDeleteCurrentStack
deriving DecidableEq

/-- `TaskError` from `errors.rs`. -/
inductive TaskError where
  | NoTasks
  | NoSuchTask (idx : Nat)
  | NoSuchTasks (idx1 idx2 : Nat)
deriving DecidableEq

/-- `ReminderError` as used by `commands.rs` (`ReminderError::InvalidReminderTime`). -/
inductive ReminderError where
  | InvalidReminderTime (spec : String)
deriving DecidableEq

/-- SQLite-level failures surfaced through `AppError::Sqlite`:
`QueryReturnedNoRows` is rusqlite's error for `query_row` on an empty result set;
`PrepareFailure` stands for a statement SQLite rejects at prepare time
(e.g. a syntactically malformed SELECT). -/
inductive SqliteError where
  | QueryReturnedNoRows
  | PrepareFailure
deriving DecidableEq

/-- `AppError` as used by `commands.rs`: the variants of `errors.rs` plus the
`Environment` variant that `remind_me` constructs. -/
inductive AppError where
  | Stack (e : StackError)
  | Task (e : TaskError)
  | Reminder (e : ReminderError)
  | Sqlite (e : SqliteError)
  | Environment (msg : String)
deriving DecidableEq

/-- `const DEFAULT_STACK_ID: StackId = 1` (from `main.rs`; `types.rs` is not under
`src/` but `main.rs` carries the same constant). -/
def DEFAULT_STACK_ID : Nat := 1

/-- SQL `max(task_order)` over a row set: `NULL` (`none`) on the empty set. -/
def maxTaskOrder : List Task → Option Int
  | [] => none
  | t :: ts =>
    match maxTaskOrder ts with
    | none => some t.task_order
    | some m => some (max t.task_order m)

/-- SQL `min(task_order)` over a row set: `NULL` (`none`) on the empty set. -/
def minTaskOrder : List Task → Option Int
  | [] => none
  | t :: ts =>
    match minTaskOrder ts with
    | none => some t.task_order
    | some m => some (min t.task_order m)

/-- `get_current_stack_id`: `SELECT stack_id FROM app_state` (singleton row). -/
def get_current_stack_id (s : Store) : Nat := s.app_stack_id

/-- The subquery `SELECT coalesce(max(task_order) + 1, 1) FROM tasks`. -/
def coalesce_max_plus_one (l : List Task) : Int :=
  match maxTaskOrder l with
  | none => 1
  | some m => m + 1

/-- The subquery `SELECT coalesce(min(task_order) - 1, 1) FROM tasks`. -/
def coalesce_min_minus_one (l : List Task) : Int :=
  match minTaskOrder l with
  | none => 1
  | some m => m - 1

/-- `push_task`: `INSERT INTO tasks(task, task_order, stack_id)
VALUES (?, (SELECT coalesce(max(task_order) + 1, 1) FROM tasks), ?)`.
Note the subquery ranges over the whole `tasks` table — there is no
`WHERE stack_id = ?` filter in the source. -/
def push_task (s : Store) (task : String) : Store :=
  { s with
    tasks := s.tasks ++
      [{ id := s.next_task_id, task := task, task_order := coalesce_max_plus_one s.tasks,
         stack_id := get_current_stack_id s }],
    next_task_id := s.next_task_id + 1 }

/-- `pushback_task`: `INSERT INTO tasks(task, task_order, stack_id)
VALUES (?, (SELECT coalesce(min(task_order) - 1, 1) FROM tasks), ?)`.
As with `push_task`, the subquery has no stack filter. -/
def pushback_task (s : Store) (task : String) : Store :=
  { s with
    tasks := s.tasks ++
      [{ id := s.next_task_id, task := task, task_order := coalesce_min_minus_one s.tasks,
         stack_id := get_current_stack_id s }],
    next_task_id := s.next_task_id + 1 }

/-- The order key claim C1 says `push` assigns, following the spec's words:
`max(order_key in stack) + 1` computed over the CURRENT stack only, or `1` if
the current stack is empty.  Stated from the claim for comparison; the source's
subquery ranges over all tasks of every stack. -/
def claimC1_order_key (s : Store) : Int :=
  match maxTaskOrder (s.tasks.filter (fun t => t.stack_id == s.app_stack_id)) with
  | none => 1
  | some m => m + 1

theorem maxTaskOrder_nil_iff {l : List Task} : maxTaskOrder l = none ↔ l = [] := by
  cases l with
  | nil => simp [maxTaskOrder]
  | cons a l =>
    simp only [maxTaskOrder]
    cases maxTaskOrder l <;> simp

theorem maxTaskOrder_le {l : List Task} {m : Int} (h : maxTaskOrder l = some m) :
    ∀ t ∈ l, t.task_order ≤ m := by
  induction l generalizing m with
  | nil => simp [maxTaskOrder] at h
  | cons a l ih =>
    intro t ht
    cases hml : maxTaskOrder l with
    | none =>
      simp only [maxTaskOrder, hml, Option.some.injEq] at h
      have hl : l = [] := maxTaskOrder_nil_iff.mp hml
      subst hl
      rcases List.mem_cons.mp ht with rfl | h2
      · omega
      · simp at h2
    | some m' =>
      simp only [maxTaskOrder, hml, Option.some.injEq] at h
      rcases List.mem_cons.mp ht with rfl | h2
      · omega
      · have := ih hml t h2
        omega

theorem maxTaskOrder_mem {l : List Task} {m : Int} (h : maxTaskOrder l = some m) :
    ∃ t ∈ l, t.task_order = m := by
  induction l generalizing m with
  | nil => simp [maxTaskOrder] at h
  | cons a l ih =>
    cases hml : maxTaskOrder l with
    | none =>
      simp only [maxTaskOrder, hml, Option.some.injEq] at h
      exact ⟨a, List.mem_cons_self a l, h⟩
    | some m' =>
      simp only [maxTaskOrder, hml, Option.some.injEq] at h
      rcases max_choice a.task_order m' with hc | hc
      · exact ⟨a, List.mem_cons_self a l, by omega⟩
      · obtain ⟨t, ht, hto⟩ := ih hml
        exact ⟨t, List.mem_cons_of_mem a ht, by omega⟩

theorem minTaskOrder_nil_iff {l : List Task} : minTaskOrder l = none ↔ l = [] := by
  cases l with
  | nil => simp [minTaskOrder]
  | cons a l =>
    simp only [minTaskOrder]
    cases minTaskOrder l <;> simp

theorem minTaskOrder_ge {l : List Task} {m : Int} (h : minTaskOrder l = some m) :
    ∀ t ∈ l, m ≤ t.task_order := by
  induction l generalizing m with
  | nil => simp [minTaskOrder] at h
  | cons a l ih =>
    intro t ht
    cases hml : minTaskOrder l with
    | none =>
      simp only [minTaskOrder, hml, Option.some.injEq] at h
      have hl : l = [] := minTaskOrder_nil_iff.mp hml
      subst hl
      rcases List.mem_cons.mp ht with rfl | h2
      · omega
      · simp at h2
    | some m' =>
      simp only [minTaskOrder, hml, Option.some.injEq] at h
      rcases List.mem_cons.mp ht with rfl | h2
      · omega
      · have := ih hml t h2
        omega

theorem minTaskOrder_mem {l : List Task} {m : Int} (h : minTaskOrder l = some m) :
    ∃ t ∈ l, t.task_order = m := by
  induction l generalizing m with
  | nil => simp [minTaskOrder] at h
  | cons a l ih =>
    cases hml : minTaskOrder l with
    | none =>
      simp only [minTaskOrder, hml, Option.some.injEq] at h
      exact ⟨a, List.mem_cons_self a l, h⟩
    | some m' =>
      simp only [minTaskOrder, hml, Option.some.injEq] at h
      rcases min_choice a.task_order m' with hc | hc
      · exact ⟨a, List.mem_cons_self a l, by omega⟩
      · obtain ⟨t, ht, hto⟩ := ih hml
        exact ⟨t, List.mem_cons_of_mem a ht, by omega⟩

/-- Store used to refute claim C1: the current stack (id 1) is empty, but stack 2
holds a task with `task_order = 5`. -/
def exC1 : Store :=
  { stack_rows := [⟨1, "default"⟩, ⟨2, "other"⟩],
    tasks := [⟨1, "a", 5, 2⟩],
    reminders := [],
    app_stack_id := 1,
    next_task_id := 2 }

/-- C1 counterexample: with the current stack empty the claim demands order key `1`,
but `push_task` assigns `6` (= max over ALL stacks + 1), because its SQL subquery
has no stack filter. -/
theorem C1_counterexample :
    claimC1_order_key exC1 = 1 ∧
    ((push_task exC1 "x").tasks.filter (fun t => t.stack_id == 1)).map Task.task_order = [6] ∧
    ((6 : Int) ≠ 1) := by
  decide

/-- C1 (amended): `push_task` appends exactly one new task, owned by the current
stack, whose `task_order` is strictly greater than the order of EVERY task in the
store (all stacks), equals some existing task's order plus one when the `tasks`
table is non-empty, and equals `1` when it is empty. -/
theorem C1_push_assigns_global_max_plus_one (s : Store) (text : String) :
    ∃ o : Int,
      (push_task s text).tasks =
        s.tasks ++ [{ id := s.next_task_id, task := text, task_order := o, stack_id := s.app_stack_id }] ∧
      (push_task s text).stack_rows = s.stack_rows ∧
      (push_task s text).reminders = s.reminders ∧
      (push_task s text).app_stack_id = s.app_stack_id ∧
      (s.tasks = [] → o = 1) ∧
      (∀ t ∈ s.tasks, t.task_order < o) ∧
      (s.tasks ≠ [] → ∃ t ∈ s.tasks, o = t.task_order + 1) := by
  cases hm : maxTaskOrder s.tasks with
  | none =>
    have hnil : s.tasks = [] := maxTaskOrder_nil_iff.mp hm
    refine ⟨1, ?_, rfl, rfl, rfl, fun _ => rfl, ?_, ?_⟩
    · simp [push_task, get_current_stack_id, coalesce_max_plus_one, hm]
    · intro t ht
      rw [hnil] at ht
      simp at ht
    · intro hne
      exact absurd hnil hne
  | some m =>
    refine ⟨m + 1, ?_, rfl, rfl, rfl, ?_, ?_, ?_⟩
    · simp [push_task, get_current_stack_id, coalesce_max_plus_one, hm]
    · intro hnil
      rw [maxTaskOrder_nil_iff.mpr hnil] at hm
      exact absurd hm (by simp)
    · intro t ht
      have := maxTaskOrder_le hm t ht
      omega
    · intro _
      obtain ⟨t, ht, hto⟩ := maxTaskOrder_mem hm
      exact ⟨t, ht, by omega⟩

/-- Character class `[0-9]` of the delay-spec regex (ASCII codes 48–57). -/
def isDigitChar (c : Char) : Bool := 48 ≤ c.toNat && c.toNat ≤ 57

/-- Character class `[1-9]` of the delay-spec regex (ASCII codes 49–57). -/
def isNonzeroDigitChar (c : Char) : Bool := 49 ≤ c.toNat && c.toNat ≤ 57

/-- Character class `[hms]` of the delay-spec regex. -/
def isUnitChar (c : Char) : Bool := c == 'h' || c == 'm' || c == 's'

/-- Numeric value of an ASCII digit character. -/
def digitVal (c : Char) : Nat := c.toNat - 48

/-- Decimal value of the captured digit run (what `.parse::<u32>()` yields on the
`amount` capture; the capture has at most 6 digits, so it is far below `u32::MAX`). -/
def digitsVal (cs : List Char) : Nat := cs.foldl (fun acc c => 10 * acc + digitVal c) 0

/-- Attempt to match `[1-9][0-9]{k-1}` followed by `[hms]` at the very start of `cs`,
with the amount exactly `k` digits long; returns the amount value and the unit. -/
def tryLen (cs : List Char) (k : Nat) : Option (Nat × Char) :=
  match cs.drop k with
  | [] => none
  | u :: _ =>
    match cs.take k with
    | [] => none
    | d :: rest =>
      if isNonzeroDigitChar d && rest.all isDigitChar && isUnitChar u then
        some (digitsVal (d :: rest), u)
      else none

/-- Greedy match of `(?P<amount>[1-9][0-9]{0,5})(?P<unit>[hms])` at the start of
`cs`: the engine prefers the longest amount, trying `k` digits down to 1. -/
def matchDown (cs : List Char) : Nat → Option (Nat × Char)
  | 0 => none
  | k + 1 =>
    match tryLen cs (k + 1) with
    | some r => some r
    | none => matchDown cs k

/-- Leftmost match of the delay-spec regex in `cs`, as `Regex::captures` finds it:
scan positions left to right, at each position prefer the longest amount. -/
def findMatch : List Char → Option (Nat × Char)
  | [] => none
  | c :: rest =>
    match matchDown (c :: rest) 6 with
    | some r => some r
    | none => findMatch rest

/-- `u32::checked_mul`: `some` iff the product fits in a `u32`. -/
def checked_mul_u32 (a b : Nat) : Option Nat :=
  if a * b < 4294967296 then some (a * b) else none

/-- The unit multiplier from `parse_delay_spec_into_seconds`
(`"h" => 60*60, "m" => 60, "s" => 1`); the `_ => unreachable!()` arm becomes `0`
and is proved unreachable. -/
def multiplier : Char → Nat
  | 'h' => 3600
  | 'm' => 60
  | 's' => 1
  | _ => 0

/-- Result of `parse_delay_spec_into_seconds`: a parsed second count, an
`AppError` (`InvalidReminderTime` when the regex does not match), or the
`expect("bug: overflow in delay time")` panic on `checked_mul` returning `None`. -/
inductive DelayParseOutcome where
  | ok (seconds : Nat)
  | err (e : AppError)
  | overflowPanic
deriving DecidableEq

/-- `parse_delay_spec_into_seconds`: `is_match`/`captures` against
`(?P<amount>[1-9][0-9]{0,5})(?P<unit>[hms])` — an UNANCHORED search, so any
string containing one matching substring is accepted, and only the first
(leftmost) match contributes; there is no summation over components. -/
def parse_delay_spec_into_seconds (spec : String) : DelayParseOutcome :=
  match findMatch spec.data with
  | none => .err (AppError.Reminder (ReminderError.InvalidReminderTime spec))
  | some (amount, unit) =>
    match checked_mul_u32 amount (multiplier unit) with
    | some v => .ok v
    | none => .overflowPanic

/-- A digit run `ds` plus unit `u` forming one delay-spec component
`<1-6 digit positive integer><unit>`. -/
def IsComponent (ds : List Char) (u : Char) : Prop :=
  1 ≤ ds.length ∧ ds.length ≤ 6 ∧
  (∃ d rest, ds = d :: rest ∧ isNonzeroDigitChar d = true ∧ rest.all isDigitChar = true) ∧
  isUnitChar u = true

/-- `cs` contains a delay-spec component as a substring (somewhere, unanchored). -/
def OccursIn (cs : List Char) : Prop :=
  ∃ pre ds u post, cs = pre ++ ds ++ u :: post ∧ IsComponent ds u

theorem tryLen_sound {cs : List Char} {k : Nat} {a : Nat} {u : Char}
    (hk : k ≤ 6) (h : tryLen cs k = some (a, u)) :
    ∃ ds post, cs = ds ++ u :: post ∧ IsComponent ds u ∧ ds.length = k ∧ a = digitsVal ds := by
  unfold tryLen at h
  split at h
  · simp at h
  · rename_i u' tail hdrop
    split at h
    · simp at h
    · rename_i d rest htake
      split at h
      · rename_i hcond
        simp only [Option.some.injEq, Prod.mk.injEq] at h
        obtain ⟨ha, hu⟩ := h
        subst hu
        have hklen : k < cs.length := by
          by_contra hge
          push_neg at hge
          rw [List.drop_eq_nil_of_le hge] at hdrop
          simp at hdrop
        have hlen : (cs.take k).length = k := by
          rw [List.length_take]
          omega
        simp only [Bool.and_eq_true] at hcond
        refine ⟨d :: rest, tail, ?_, ?_, ?_, ha.symm⟩
        · rw [← htake, ← hdrop, List.take_append_drop]
        · refine ⟨?_, ?_, ⟨d, rest, rfl, hcond.1.1, hcond.1.2⟩, hcond.2⟩
          · simp
          · rw [htake] at hlen
            simp only [List.length_cons] at hlen ⊢
            omega
        · rw [htake] at hlen
          exact hlen
      · simp at h

theorem tryLen_complete {ds post : List Char} {u : Char}
    (hc : IsComponent ds u) :
    tryLen (ds ++ u :: post) ds.length = some (digitsVal ds, u) := by
  obtain ⟨h1, h6, ⟨d, rest, hds, hd, hrest⟩, hu⟩ := hc
  have hdrop : (ds ++ u :: post).drop ds.length = u :: post := List.drop_left ds (u :: post)
  have htake : (ds ++ u :: post).take ds.length = ds := List.take_left ds (u :: post)
  unfold tryLen
  rw [hdrop, htake, hds]
  simp [hd, hrest, hu]

theorem matchDown_sound {cs : List Char} {n : Nat} {a : Nat} {u : Char}
    (hn : n ≤ 6) (h : matchDown cs n = some (a, u)) :
    ∃ ds post, cs = ds ++ u :: post ∧ IsComponent ds u ∧ a = digitsVal ds := by
  induction n with
  | zero => simp [matchDown] at h
  | succ k ih =>
    unfold matchDown at h
    cases htl : tryLen cs (k + 1) with
    | some r =>
      rw [htl] at h
      simp only [Option.some.injEq] at h
      subst h
      obtain ⟨ds, post, heq, hc, _, ha⟩ := tryLen_sound hn htl
      exact ⟨ds, post, heq, hc, ha⟩
    | none =>
      rw [htl] at h
      exact ih (by omega) h

theorem matchDown_none {cs : List Char} {n : Nat} (h : matchDown cs n = none) :
    ∀ k, 1 ≤ k → k ≤ n → tryLen cs k = none := by
  induction n with
  | zero => intro k h1 h2; omega
  | succ m ih =>
    intro k h1 h2
    unfold matchDown at h
    cases htl : tryLen cs (m + 1) with
    | some r => rw [htl] at h; simp at h
    | none =>
      rw [htl] at h
      rcases Nat.lt_or_ge k (m + 1) with hlt | hge
      · exact ih h k h1 (by omega)
      · have : k = m + 1 := by omega
        subst this
        exact htl

theorem findMatch_sound {cs : List Char} {a : Nat} {u : Char}
    (h : findMatch cs = some (a, u)) :
    ∃ pre ds post, cs = pre ++ ds ++ u :: post ∧ IsComponent ds u ∧ a = digitsVal ds := by
  induction cs with
  | nil => simp [findMatch] at h
  | cons c rest ih =>
    unfold findMatch at h
    cases hmd : matchDown (c :: rest) 6 with
    | some r =>
      rw [hmd] at h
      simp only [Option.some.injEq] at h
      subst h
      obtain ⟨ds, post, heq, hc, ha⟩ := matchDown_sound (by omega) hmd
      exact ⟨[], ds, post, by simpa using heq, hc, ha⟩
    | none =>
      rw [hmd] at h
      obtain ⟨pre, ds, post, heq, hc, ha⟩ := ih h
      exact ⟨c :: pre, ds, post, by simp [heq], hc, ha⟩

theorem findMatch_complete {cs : List Char} (h : OccursIn cs) :
    findMatch cs ≠ none := by
  induction cs with
  | nil =>
    obtain ⟨pre, ds, u, post, heq, hc⟩ := h
    have := congrArg List.length heq
    simp at this
    omega
  | cons c rest ih =>
    obtain ⟨pre, ds, u, post, heq, hc⟩ := h
    unfold findMatch
    cases hmd : matchDown (c :: rest) 6 with
    | some r => simp
    | none =>
      cases pre with
      | nil =>
        exfalso
        simp only [List.nil_append] at heq
        have htl : tryLen (c :: rest) ds.length = some (digitsVal ds, u) := by
          rw [heq]
          exact tryLen_complete hc
        have := matchDown_none hmd ds.length hc.1 hc.2.1
        rw [htl] at this
        simp at this
      | cons c' pre' =>
        simp only [List.cons_append] at heq
        have hrest : rest = pre' ++ ds ++ u :: post := by
          injection heq with h1 h2
        exact ih ⟨pre', ds, u, post, by injection heq with h1 h2, hc⟩

theorem digitVal_le {c : Char} (h : isDigitChar c = true) : digitVal c ≤ 9 := by
  simp only [isDigitChar, Bool.and_eq_true, decide_eq_true_eq] at h
  unfold digitVal
  omega

theorem digitsVal_aux {cs : List Char} (hall : ∀ c ∈ cs, isDigitChar c = true) :
    ∀ acc, cs.foldl (fun acc c => 10 * acc + digitVal c) acc < (acc + 1) * 10 ^ cs.length := by
  induction cs with
  | nil => intro acc; simp
  | cons c cs ih =>
    intro acc
    have hd : digitVal c ≤ 9 := digitVal_le (hall c (List.mem_cons_self c cs))
    have hrec := ih (fun c' hc' => hall c' (List.mem_cons_of_mem c hc')) (10 * acc + digitVal c)
    simp only [List.foldl_cons, List.length_cons]
    calc (cs.foldl (fun acc c => 10 * acc + digitVal c) (10 * acc + digitVal c))
        < (10 * acc + digitVal c + 1) * 10 ^ cs.length := hrec
      _ ≤ ((acc + 1) * 10) * 10 ^ cs.length := by
          have : 10 * acc + digitVal c + 1 ≤ (acc + 1) * 10 := by omega
          exact Nat.mul_le_mul_right _ this
      _ = (acc + 1) * 10 ^ (cs.length + 1) := by ring

theorem digitsVal_lt {cs : List Char} (hall : ∀ c ∈ cs, isDigitChar c = true) :
    digitsVal cs < 10 ^ cs.length := by
  have := digitsVal_aux hall 0
  simpa [digitsVal] using this

theorem IsComponent_amount_le {ds : List Char} {u : Char} (hc : IsComponent ds u) :
    digitsVal ds ≤ 999999 := by
  obtain ⟨h1, h6, ⟨d, rest, hds, hd, hrest⟩, hu⟩ := hc
  have hall : ∀ c ∈ ds, isDigitChar c = true := by
    intro c hcmem
    rw [hds] at hcmem
    rcases List.mem_cons.mp hcmem with rfl | hmem
    · simp only [isNonzeroDigitChar, Bool.and_eq_true, decide_eq_true_eq] at hd
      simp only [isDigitChar, Bool.and_eq_true, decide_eq_true_eq]
      omega
    · exact List.all_eq_true.mp hrest c hmem
  have hlt := digitsVal_lt hall
  have hpow : (10 : Nat) ^ ds.length ≤ 10 ^ 6 := Nat.pow_le_pow_right (by omega) h6
  omega

theorem multiplier_le {u : Char} (hu : isUnitChar u = true) : multiplier u ≤ 3600 := by
  simp only [isUnitChar, Bool.or_eq_true, beq_iff_eq] at hu
  rcases hu with (rfl | rfl) | rfl <;> simp [multiplier]

/-- C10: the overflow `expect` in `parse_delay_spec_into_seconds` is unreachable.
Whenever the regex matches, the captured amount has at most 6 digits (≤ 999999)
and the multiplier is at most 3600, so the product is at most 3599996400 < 2^32
and `checked_mul` always returns `Some`. -/
theorem C10_no_overflow_panic (s : String) :
    parse_delay_spec_into_seconds s ≠ DelayParseOutcome.overflowPanic := by
  unfold parse_delay_spec_into_seconds
  cases hfm : findMatch s.data with
  | none => simp
  | some r =>
    obtain ⟨a, u⟩ := r
    obtain ⟨pre, ds, post, heq, hc, ha⟩ := findMatch_sound hfm
    have hamount : a ≤ 999999 := by rw [ha]; exact IsComponent_amount_le hc
    have hmul : multiplier u ≤ 3600 := multiplier_le hc.2.2.2
    have hprod : a * multiplier u < 4294967296 := by
      have h1 : a * multiplier u ≤ 999999 * 3600 := Nat.mul_le_mul hamount hmul
      omega
    simp only [checked_mul_u32, if_pos hprod]
    simp

/-- C5 counterexample: the claim says the parser sums all present components, so
`"1h30m"` should yield 3600 + 1800 = 5400; the code uses only the first regex
match (`"1h"`) and returns 3600. -/
theorem C5_counterexample :
    parse_delay_spec_into_seconds "1h30m" = DelayParseOutcome.ok 3600 ∧
    parse_delay_spec_into_seconds "1h30m" ≠ DelayParseOutcome.ok 5400 := by
  constructor
  · decide
  · decide

/-- C5 (amended): the parser succeeds exactly on strings CONTAINING at least one
component `<1-6 digit positive integer><h|m|s>` anywhere (the regex search is
unanchored), fails with `InvalidReminderTime` otherwise, and on success returns
`amount * multiplier` for a single matched component — never a sum of several. -/
theorem C5_parser_first_match_only (s : String) :
    ((∃ v, parse_delay_spec_into_seconds s = DelayParseOutcome.ok v) ↔ OccursIn s.data) ∧
    (¬ OccursIn s.data →
      parse_delay_spec_into_seconds s =
        DelayParseOutcome.err (AppError.Reminder (ReminderError.InvalidReminderTime s))) ∧
    (∀ v, parse_delay_spec_into_seconds s = DelayParseOutcome.ok v →
      ∃ pre ds u post, s.data = pre ++ ds ++ u :: post ∧ IsComponent ds u ∧
        v = digitsVal ds * multiplier u) := by
  have hok : ∀ a u, findMatch s.data = some (a, u) →
      parse_delay_spec_into_seconds s = DelayParseOutcome.ok (a * multiplier u) := by
    intro a u hfm
    obtain ⟨pre, ds, post, heq, hc, ha⟩ := findMatch_sound hfm
    have hamount : a ≤ 999999 := by rw [ha]; exact IsComponent_amount_le hc
    have hmul : multiplier u ≤ 3600 := multiplier_le hc.2.2.2
    have hprod : a * multiplier u < 4294967296 := by
      have h1 : a * multiplier u ≤ 999999 * 3600 := Nat.mul_le_mul hamount hmul
      omega
    unfold parse_delay_spec_into_seconds
    rw [hfm]
    simp [checked_mul_u32, if_pos hprod]
  refine ⟨⟨?_, ?_⟩, ?_, ?_⟩
  · rintro ⟨v, hv⟩
    unfold parse_delay_spec_into_seconds at hv
    cases hfm : findMatch s.data with
    | none => rw [hfm] at hv; simp at hv
    | some r =>
      obtain ⟨a, u⟩ := r
      obtain ⟨pre, ds, post, heq, hc, _⟩ := findMatch_sound hfm
      exact ⟨pre, ds, u, post, heq, hc⟩
  · intro hocc
    cases hfm : findMatch s.data with
    | none => exact absurd hfm (findMatch_complete hocc)
    | some r => exact ⟨r.1 * multiplier r.2, hok r.1 r.2 (by rw [hfm])⟩
  · intro hnocc
    unfold parse_delay_spec_into_seconds
    cases hfm : findMatch s.data with
    | none => rfl
    | some r =>
      obtain ⟨a, u⟩ := r
      obtain ⟨pre, ds, post, heq, hc, _⟩ := findMatch_sound hfm
      exact absurd ⟨pre, ds, u, post, heq, hc⟩ hnocc
  · intro v hv
    cases hfm : findMatch s.data with
    | none =>
      unfold parse_delay_spec_into_seconds at hv
      rw [hfm] at hv
      simp at hv
    | some r =>
      obtain ⟨a, u⟩ := r
      obtain ⟨pre, ds, post, heq, hc, ha⟩ := findMatch_sound hfm
      have := hok a u hfm
      rw [this] at hv
      simp only [DelayParseOutcome.ok.injEq] at hv
      exact ⟨pre, ds, u, post, heq, hc, by rw [← hv, ha]⟩

/-- C5 witness: `"2m"` parses and indeed contains a component. -/
theorem C5_witness :
    ∃ v, parse_delay_spec_into_seconds "2m" = DelayParseOutcome.ok v :=
  (C5_parser_first_match_only "2m").1.mpr
    ⟨[], ['2'], 'm', [], by decide,
      by decide, by decide, ⟨'2', [], rfl, by decide, by decide⟩, by decide⟩

/-- Ordering used by SQL `ORDER BY task_order`. -/
def leOrd (a b : Task) : Prop := a.task_order ≤ b.task_order

instance : DecidableRel leOrd := fun a b => inferInstanceAs (Decidable (a.task_order ≤ b.task_order))

instance : IsTotal Task leOrd := ⟨fun a b => Int.le_total a.task_order b.task_order⟩

instance : IsTrans Task leOrd := ⟨fun _ _ _ h1 h2 => Int.le_trans h1 h2⟩

/-- A window `row_number() OVER (ORDER BY task_order)` materialised: the rows
sorted by `task_order` (how SQLite breaks ties is unspecified; the claims proved
below either assume distinct orders or do not depend on the tie order). -/
def sortByOrder (l : List Task) : List Task := List.insertionSort leOrd l

/-- The `UPDATE tasks SET task_order = task_order + 1
WHERE task_order >= :task_order AND stack_id = :stack_id` of `insert_after`,
as the per-row transformation it applies. -/
def shiftTask (cur : Nat) (τ : Int) (t : Task) : Task :=
  if t.stack_id == cur && τ ≤ t.task_order then
    { t with task_order := t.task_order + 1 }
  else t

/-- `insert_after`: validates the 0-based index against the CURRENT stack's task
count, then branches — index 0 goes to `push_task`, index count−1 goes to
`pushback_task`, and interior indexes shift every current-stack task at or past
the insertion key up by one and insert at the freed key.  The row-number lookup
feeding the insertion key ranges over ALL tasks (its inner SELECT has no stack
filter), as in the source. -/
def insert_after (s : Store) (task_index : Nat) (task : String) : Except AppError Store :=
  let current_stack_id := get_current_stack_id s
  let num_tasks := (s.tasks.filter (fun t => t.stack_id == current_stack_id)).length
  if task_index ≥ num_tasks then
    .error (AppError.Task (TaskError.NoSuchTask task_index))
  else if task_index == 0 then
    .ok (push_task s task)
  else if task_index == num_tasks - 1 then
    .ok (pushback_task s task)
  else
    match (sortByOrder s.tasks)[task_index]? with
    | none => .error (AppError.Sqlite SqliteError.QueryReturnedNoRows)
    | some row =>
      let task_order := row.task_order + 1
      let shifted := s.tasks.map (shiftTask current_stack_id task_order)
      .ok { s with
        tasks := shifted ++
          [{ id := s.next_task_id, task := task, task_order := task_order,
             stack_id := current_stack_id }],
        next_task_id := s.next_task_id + 1 }

/-- The spec §3 invariant: within each stack all `task_order` values are pairwise
distinct (stated over the whole task table). -/
def DistinctOrders (s : Store) : Prop :=
  s.tasks.Pairwise (fun a b => a.stack_id = b.stack_id → a.task_order ≠ b.task_order)

/-- One sequencer operation of the kind claim C2 quantifies over. -/
inductive SequencerOp where
  | push (text : String)
  | pushback (text : String)
  | insertAfter (idx : Nat) (text : String)

/-- Apply one sequencer operation; a failing `insert_after` leaves the store
unchanged (the CLI reports the error and performs no write). -/
def applySequencerOp (s : Store) : SequencerOp → Store
  | .push text => push_task s text
  | .pushback text => pushback_task s text
  | .insertAfter idx text =>
    match insert_after s idx text with
    | .ok s' => s'
    | .error _ => s

/-- Run a sequence of sequencer operations. -/
def runSequencer (s : Store) (ops : List SequencerOp) : Store :=
  ops.foldl applySequencerOp s

theorem lt_coalesce_max {l : List Task} : ∀ t ∈ l, t.task_order < coalesce_max_plus_one l := by
  intro t ht
  cases hm : maxTaskOrder l with
  | none =>
    rw [maxTaskOrder_nil_iff.mp hm] at ht
    simp at ht
  | some m =>
    have := maxTaskOrder_le hm t ht
    simp only [coalesce_max_plus_one, hm]
    omega

theorem coalesce_min_lt {l : List Task} : ∀ t ∈ l, coalesce_min_minus_one l < t.task_order := by
  intro t ht
  cases hm : minTaskOrder l with
  | none =>
    rw [minTaskOrder_nil_iff.mp hm] at ht
    simp at ht
  | some m =>
    have := minTaskOrder_ge hm t ht
    simp only [coalesce_min_minus_one, hm]
    omega

theorem DistinctOrders_push (s : Store) (text : String) (h : DistinctOrders s) :
    DistinctOrders (push_task s text) := by
  unfold DistinctOrders push_task
  rw [List.pairwise_append]
  refine ⟨h, List.pairwise_singleton _ _, ?_⟩
  intro a ha b hb
  simp only [List.mem_singleton] at hb
  subst hb
  intro _
  have := lt_coalesce_max a ha
  simp only
  omega

theorem DistinctOrders_pushback (s : Store) (text : String) (h : DistinctOrders s) :
    DistinctOrders (pushback_task s text) := by
  unfold DistinctOrders pushback_task
  rw [List.pairwise_append]
  refine ⟨h, List.pairwise_singleton _ _, ?_⟩
  intro a ha b hb
  simp only [List.mem_singleton] at hb
  subst hb
  intro _
  have := coalesce_min_lt a ha
  simp only
  omega

theorem shiftTask_stack_id (cur : Nat) (τ : Int) (t : Task) :
    (shiftTask cur τ t).stack_id = t.stack_id := by
  unfold shiftTask
  split <;> rfl

theorem shiftTask_order_cases (cur : Nat) (τ : Int) (t : Task) :
    (t.stack_id = cur ∧ τ ≤ t.task_order ∧ (shiftTask cur τ t).task_order = t.task_order + 1) ∨
    (¬ (t.stack_id = cur ∧ τ ≤ t.task_order) ∧ (shiftTask cur τ t).task_order = t.task_order) := by
  unfold shiftTask
  split
  · rename_i hc
    simp only [Bool.and_eq_true, beq_iff_eq, decide_eq_true_eq] at hc
    exact Or.inl ⟨hc.1, hc.2, rfl⟩
  · rename_i hc
    simp only [Bool.and_eq_true, beq_iff_eq, decide_eq_true_eq] at hc
    exact Or.inr ⟨hc, rfl⟩

theorem DistinctOrders_shift_insert (s : Store) (cur : Nat) (τ : Int) (nid : Nat)
    (text : String) (h : DistinctOrders s) :
    ((s.tasks.map (shiftTask cur τ)) ++
      [({ id := nid, task := text, task_order := τ, stack_id := cur } : Task)]).Pairwise
      (fun a b => a.stack_id = b.stack_id → a.task_order ≠ b.task_order) := by
  rw [List.pairwise_append]
  refine ⟨?_, List.pairwise_singleton _ _, ?_⟩
  · rw [List.pairwise_map]
    refine h.imp ?_
    intro a b hab
    intro hs
    rw [shiftTask_stack_id, shiftTask_stack_id] at hs
    rcases shiftTask_order_cases cur τ a with ⟨ha1, ha2, ha3⟩ | ⟨ha1, ha3⟩ <;>
      rcases shiftTask_order_cases cur τ b with ⟨hb1, hb2, hb3⟩ | ⟨hb1, hb3⟩
    · have := hab hs
      omega
    · have hbc : b.stack_id = cur := by rw [← hs]; exact ha1
      have hble : ¬ (τ ≤ b.task_order) := fun hle => hb1 ⟨hbc, hle⟩
      omega
    · have hac : a.stack_id = cur := by rw [hs]; exact hb1
      have hale : ¬ (τ ≤ a.task_order) := fun hle => ha1 ⟨hac, hle⟩
      omega
    · have := hab hs
      omega
  · intro x hx b hb
    simp only [List.mem_singleton] at hb
    subst hb
    simp only [List.mem_map] at hx
    obtain ⟨t, ht, rfl⟩ := hx
    intro hs
    rw [shiftTask_stack_id] at hs
    simp only at hs
    rcases shiftTask_order_cases cur τ t with ⟨ht1, ht2, ht3⟩ | ⟨ht1, ht3⟩
    · simp only
      omega
    · have : ¬ (τ ≤ t.task_order) := fun hle => ht1 ⟨hs, hle⟩
      simp only
      omega

theorem DistinctOrders_insert_after (s : Store) (idx : Nat) (text : String)
    (h : DistinctOrders s) :
    ∀ s', insert_after s idx text = Except.ok s' → DistinctOrders s' := by
  intro s' hs'
  unfold insert_after at hs'
  by_cases h1 : idx ≥ (s.tasks.filter (fun t => t.stack_id == get_current_stack_id s)).length
  · rw [if_pos h1] at hs'
    simp at hs'
  · rw [if_neg h1] at hs'
    by_cases h2 : (idx == 0) = true
    · rw [if_pos h2] at hs'
      simp only [Except.ok.injEq] at hs'
      subst hs'
      exact DistinctOrders_push s text h
    · rw [if_neg h2] at hs'
      by_cases h3 :
          (idx == (s.tasks.filter (fun t => t.stack_id == get_current_stack_id s)).length - 1)
            = true
      · rw [if_pos h3] at hs'
        simp only [Except.ok.injEq] at hs'
        subst hs'
        exact DistinctOrders_pushback s text h
      · rw [if_neg h3] at hs'
        cases hrow : (sortByOrder s.tasks)[idx]? with
        | none =>
          rw [hrow] at hs'
          simp at hs'
        | some row =>
          rw [hrow] at hs'
          simp only [Except.ok.injEq] at hs'
          subst hs'
          unfold DistinctOrders
          exact DistinctOrders_shift_insert s (get_current_stack_id s) (row.task_order + 1)
            s.next_task_id text h

theorem DistinctOrders_step (s : Store) (op : SequencerOp) (h : DistinctOrders s) :
    DistinctOrders (applySequencerOp s op) := by
  cases op with
  | push text => exact DistinctOrders_push s text h
  | pushback text => exact DistinctOrders_pushback s text h
  | insertAfter idx text =>
    simp only [applySequencerOp]
    cases hio : insert_after s idx text with
    | ok s' =>
      simp only [hio]
      exact DistinctOrders_insert_after s idx text h s' hio
    | error e =>
      simp only [hio]
      exact h

/-- C2: starting from any store whose stacks each have pairwise-distinct
`task_order` values, every sequence of push / pushback / insertAfter operations
preserves that distinctness. -/
theorem C2_sequencer_preserves_distinct_orders (s : Store) (ops : List SequencerOp)
    (h : DistinctOrders s) : DistinctOrders (runSequencer s ops) := by
  induction ops generalizing s with
  | nil => exact h
  | cons op ops ih =>
    unfold runSequencer at ih ⊢
    simp only [List.foldl_cons]
    exact ih (applySequencerOp s op) (DistinctOrders_step s op h)

/-- The store `init_db` creates on first run: the default stack (id 1), empty
`tasks` and `reminders`, `app_state` pointing at the default stack. -/
def init_store : Store :=
  { stack_rows := [⟨DEFAULT_STACK_ID, "default"⟩],
    tasks := [],
    reminders := [],
    app_stack_id := DEFAULT_STACK_ID,
    next_task_id := 1 }

/-- C2 witness: a concrete run of pushes, a backpush and an interior insertAfter
from the freshly initialised store keeps orders distinct. -/
theorem C2_witness :
    DistinctOrders (runSequencer init_store
      [SequencerOp.push "a", SequencerOp.push "b", SequencerOp.push "c",
       SequencerOp.pushback "d", SequencerOp.insertAfter 2 "e"]) :=
  C2_sequencer_preserves_distinct_orders init_store _ (by simp [DistinctOrders, init_store])

/-- Store used for claim C3: two tasks (orders 1 and 2) in the default stack. -/
def exC3 : Store :=
  { stack_rows := [⟨1, "default"⟩],
    tasks := [⟨1, "a", 1, 1⟩, ⟨2, "b", 2, 1⟩],
    reminders := [],
    app_stack_id := 1,
    next_task_id := 3 }

/-- C3 (code bug): on a 2-task stack, `insert_after 0` takes the `push_task`
branch (new task on TOP, order 3) and `insert_after 1` (= count−1) takes the
`pushback_task` branch (new task at BOTTOM, order 0) — the opposite of the claim
and of the function's own doc comment, which says `task_index == 0` is
equivalent to `backpush`. -/
theorem C3_insert_after_branches_swapped :
    insert_after exC3 0 "x" = Except.ok (push_task exC3 "x") ∧
    insert_after exC3 1 "x" = Except.ok (pushback_task exC3 "x") ∧
    ((push_task exC3 "x").tasks.filter (fun t => t.stack_id == 1)).map Task.task_order
      = [1, 2, 3] ∧
    ((pushback_task exC3 "x").tasks.filter (fun t => t.stack_id == 1)).map Task.task_order
      = [1, 2, 0] := by
  refine ⟨rfl, rfl, by decide, by decide⟩

/-- `stack_name_to_id`: `SELECT id FROM stacks WHERE name = ?`, erroring with
`NoSuchStack` when no row matches. -/
def stack_name_to_id (s : Store) (name : String) : Except AppError Nat :=
  match s.stack_rows.find? (fun st => st.name == name) with
  | none => .error (AppError.Stack (StackError.NoSuchStack name))
  | some st => .ok st.id

/-- `pop_to`: after resolving the destination, the source runs
`SELECT id FROM tasks WHERE task_order = (SELECT max(task_order) FROM tasks
WHERE stack_id = :stack_id) WHERE stack_id = :stack_id` — note the TWO `WHERE`
clauses on the outer SELECT.  SQLite rejects such a statement at prepare time,
so the query errors before reading any row, on every store and every resolved
destination; no task is ever moved. -/
def pop_to (s : Store) (destination_stack : String) : Except AppError Store :=
  match stack_name_to_id s destination_stack with
  | .error e => .error e
  | .ok _ => .error (AppError.Sqlite SqliteError.PrepareFailure)

/-- `drop_stack`: refuses the default stack, then the current stack, then in one
transaction deletes the stack's tasks and the stack row.  An error outcome
performs no write. -/
def drop_stack (s : Store) (stack_name : String) : Except AppError Store :=
  let current_stack_id := get_current_stack_id s
  match stack_name_to_id s stack_name with
  | .error e => .error e
  | .ok stack_id =>
    if stack_id = DEFAULT_STACK_ID then
      .error (AppError.Stack StackError.CantDeleteDefaultStack)
    else if stack_id = current_stack_id then
      .error (AppError.Stack StackError.CantDeleteCurrentStack)
    else
      .ok { s with
        tasks := s.tasks.filter (fun t => !(t.stack_id == stack_id)),
        stack_rows := s.stack_rows.filter (fun st => !(st.id == stack_id)) }

/-- The per-stack rank view used by `task_index_to_task_id`:
`SELECT id, row_number() OVER (ORDER BY task_order) row FROM tasks WHERE stack_id = ?`. -/
def ranked (s : Store) (stack_id : Nat) : List Task :=
  sortByOrder (s.tasks.filter (fun t => t.stack_id == stack_id))

/-- `task_index_to_task_id`: bound-checks the 0-based index against the stack's
task count, then picks row `task_index + 1` of the rank view. -/
def task_index_to_task_id (s : Store) (stack_id : Nat) (task_index : Nat) :
    Except AppError Nat :=
  let task_count := (s.tasks.filter (fun t => t.stack_id == stack_id)).length
  if task_index ≥ task_count then
    .error (AppError.Task (TaskError.NoSuchTask task_index))
  else
    match (ranked s stack_id)[task_index]? with
    | none => .error (AppError.Sqlite SqliteError.QueryReturnedNoRows)
    | some t => .ok t.id

/-- Modelled from the spec: the `reminders` table schema is missing from `src/`
(the `init_db` in `src/main.rs` predates the reminder feature and creates no
`reminders` table, and no other file under `src/` creates it); spec §3 says
"A Reminder's owning Task is deleted-cascades: if the Task is removed, the
Reminder is removed too".  This function applies that `ON DELETE CASCADE` for a
deleted task id. -/
def cascade_reminders (rs : List Reminder) (task_id : Nat) : List Reminder :=
  rs.filter (fun r => !(r.task_id == task_id))

/-- `kill_task`: bound-checks the index, resolves it to a task id, reads the
task text (`SELECT task FROM tasks WHERE stack_id = ? AND id = ?`), then deletes
the row (`DELETE FROM tasks WHERE stack_id = ? AND id = ?`); the reminder rows
referencing the task disappear through the cascade (see `cascade_reminders`). -/
def kill_task (s : Store) (idx : Nat) : Except AppError (String × Store) :=
  let current_stack_id := get_current_stack_id s
  let task_count := (s.tasks.filter (fun t => t.stack_id == current_stack_id)).length
  if idx ≥ task_count then
    .error (AppError.Task (TaskError.NoSuchTask idx))
  else
    match task_index_to_task_id s current_stack_id idx with
    | .error e => .error e
    | .ok task_id =>
      match s.tasks.find? (fun t => t.stack_id == current_stack_id && t.id == task_id) with
      | none => .error (AppError.Sqlite SqliteError.QueryReturnedNoRows)
      | some trow =>
        .ok (trow.task,
          { s with
            tasks := s.tasks.filter
              (fun t => !(t.stack_id == current_stack_id && t.id == task_id)),
            reminders := cascade_reminders s.reminders task_id })

/-- Result of `remind_me`: a committed store, a propagated `AppError`, or the
delay-overflow panic (unreachable). -/
inductive RemindOutcome where
  | ok (s : Store)
  | err (e : AppError)
  | panic
deriving DecidableEq

/-- `remind_me`: resolves the task index, parses the delay spec, locates the
current executable (`exe_ok` models whether `env::current_exe` succeeds), then
inside an EXCLUSIVE transaction inserts the reminder row and spawns the worker
(`spawn_ok` models the spawn result, `reminder_id` the generated UUID).  The
transaction commits only after a successful spawn; on a spawn failure the
`Environment` error propagates and the transaction rolls back, so an `err`
outcome leaves the store untouched (no reminder row persists). -/
def remind_me (s : Store) (task_index : Nat) (reminder_string : String)
    (reminder_id : String) (exe_ok : Bool) (spawn_ok : Bool) : RemindOutcome :=
  match task_index_to_task_id s (get_current_stack_id s) task_index with
  | .error e => .err e
  | .ok task_id =>
    match parse_delay_spec_into_seconds reminder_string with
    | .err e => .err e
    | .overflowPanic => .panic
    | .ok delay_time =>
      if !exe_ok then
        .err (AppError.Environment "unable to obtain path to current executable")
      else if spawn_ok then
        .ok { s with
          reminders := s.reminders ++
            [{ id := reminder_id, delay := delay_time, task_id := task_id }] }
      else
        .err (AppError.Environment "unable to spawn reminder process")

/-- `trigger_reminder`: reads `(delay, task_id)` for the reminder id (`query_row`
errors with `QueryReturnedNoRows` if the row is gone), sleeps (elided), then in a
transaction reads the task text (`SELECT task FROM tasks WHERE id = ?`, again an
error if the task row is gone) and deletes the reminder row; the returned string
is the notification body shown afterwards. -/
def trigger_reminder (s : Store) (reminder_id : String) : Except AppError (String × Store) :=
  match s.reminders.find? (fun r => r.id == reminder_id) with
  | none => .error (AppError.Sqlite SqliteError.QueryReturnedNoRows)
  | some r =>
    match s.tasks.find? (fun t => t.id == r.task_id) with
    | none => .error (AppError.Sqlite SqliteError.QueryReturnedNoRows)
    | some trow =>
      .ok (trow.task,
        { s with reminders := s.reminders.filter (fun r2 => !(r2.id == reminder_id)) })

/-- C6 (code bug): `pop_to` can never succeed — the malformed double-`WHERE`
SELECT fails at prepare time — and with a resolvable destination it surfaces
exactly that SQLite failure instead of moving the top task. -/
theorem C6_pop_to_always_fails (s : Store) (dest : String) :
    (∀ s', pop_to s dest ≠ Except.ok s') ∧
    (∀ sid, stack_name_to_id s dest = Except.ok sid →
      pop_to s dest = Except.error (AppError.Sqlite SqliteError.PrepareFailure)) := by
  constructor
  · intro s' hcontra
    unfold pop_to at hcontra
    cases hr : stack_name_to_id s dest with
    | error e => rw [hr] at hcontra; simp at hcontra
    | ok sid => rw [hr] at hcontra; simp at hcontra
  · intro sid hr
    unfold pop_to
    rw [hr]

/-- C6 witness: on the freshly initialised store, `pop_to "default"` resolves the
destination yet returns the prepare-time SQLite error. -/
theorem C6_witness :
    pop_to init_store "default" = Except.error (AppError.Sqlite SqliteError.PrepareFailure) :=
  (C6_pop_to_always_fails init_store "default").2 DEFAULT_STACK_ID rfl

/-- C8: with a resolvable name, `drop_stack` fails with `CantDeleteDefaultStack`
on the default stack, fails with `CantDeleteCurrentStack` on the (non-default)
current stack — both failures writing nothing — and otherwise atomically deletes
every task owned by the stack and then the stack row itself. -/
theorem C8_drop_stack_spec (s : Store) (name : String) (sid : Nat)
    (hres : stack_name_to_id s name = Except.ok sid) :
    (sid = DEFAULT_STACK_ID →
      drop_stack s name = Except.error (AppError.Stack StackError.CantDeleteDefaultStack)) ∧
    (sid ≠ DEFAULT_STACK_ID → sid = s.app_stack_id →
      drop_stack s name = Except.error (AppError.Stack StackError.CantDeleteCurrentStack)) ∧
    (sid ≠ DEFAULT_STACK_ID → sid ≠ s.app_stack_id →
      drop_stack s name = Except.ok { s with
        tasks := s.tasks.filter (fun t => !(t.stack_id == sid)),
        stack_rows := s.stack_rows.filter (fun st => !(st.id == sid)) }) := by
  refine ⟨?_, ?_, ?_⟩
  · intro hdef
    unfold drop_stack
    rw [hres]
    dsimp only [get_current_stack_id]
    rw [if_pos hdef]
  · intro hndef hcur
    unfold drop_stack
    rw [hres]
    dsimp only [get_current_stack_id]
    rw [if_neg hndef, if_pos hcur]
  · intro hndef hncur
    unfold drop_stack
    rw [hres]
    dsimp only [get_current_stack_id]
    rw [if_neg hndef, if_neg hncur]

/-- Store used to exercise C8: three stacks, current stack is 2, stack 3 owns a
task. -/
def exC8 : Store :=
  { stack_rows := [⟨1, "default"⟩, ⟨2, "work"⟩, ⟨3, "play"⟩],
    tasks := [⟨1, "t1", 1, 3⟩, ⟨2, "t2", 1, 2⟩],
    reminders := [],
    app_stack_id := 2,
    next_task_id := 3 }

/-- C8 witness: dropping the resolvable, non-default, non-current stack `"play"`
deletes its task and its stack row. -/
theorem C8_witness :
    drop_stack exC8 "play" = Except.ok { exC8 with
      tasks := [⟨2, "t2", 1, 2⟩],
      stack_rows := [⟨1, "default"⟩, ⟨2, "work"⟩] } := by
  have h := (C8_drop_stack_spec exC8 "play" 3 rfl).2.2 (by decide) (by decide)
  rw [h]
  rfl

/-- The store left behind by `kill_task exC4 0`: the task and (by cascade) its
reminder are gone. -/
def exC4_killed : Store :=
  { stack_rows := [⟨1, "default"⟩],
    tasks := [],
    reminders := [],
    app_stack_id := 1,
    next_task_id := 2 }

/-- Store used for C4: one task in the default stack with one pending reminder. -/
def exC4 : Store :=
  { stack_rows := [⟨1, "default"⟩],
    tasks := [⟨1, "t", 1, 1⟩],
    reminders := [⟨"r1", 5, 1⟩],
    app_stack_id := 1,
    next_task_id := 2 }

/-- C4 counterexample: killing the task does cascade its reminder away, but
firing that reminder afterwards returns a `QueryReturnedNoRows` database error —
an error exit, not the safe no-op the claim asserts. -/
theorem C4_counterexample :
    kill_task exC4 0 = Except.ok ("t", exC4_killed) ∧
    exC4_killed.reminders = [] ∧
    trigger_reminder exC4_killed "r1" =
      Except.error (AppError.Sqlite SqliteError.QueryReturnedNoRows) := by
  refine ⟨?_, rfl, rfl⟩
  rfl

/-- C4 (amended): a successful `kill_task` removes every reminder row referencing
the killed task (cascade, modelled from the spec), and firing a reminder whose
rows all referenced that task afterwards fails with `QueryReturnedNoRows` — it
never fires for the nonexistent task, but it is an error return, not a no-op. -/
theorem C4_kill_cascades_then_trigger_errors (s : Store) (idx : Nat) (text : String)
    (s' : Store) (hk : kill_task s idx = Except.ok (text, s')) :
    ∃ task_id,
      task_index_to_task_id s (get_current_stack_id s) idx = Except.ok task_id ∧
      s'.reminders = cascade_reminders s.reminders task_id ∧
      (∀ r ∈ s'.reminders, r.task_id ≠ task_id) ∧
      (∀ rid, (∀ r ∈ s.reminders, r.id = rid → r.task_id = task_id) →
        trigger_reminder s' rid =
          Except.error (AppError.Sqlite SqliteError.QueryReturnedNoRows)) := by
  unfold kill_task at hk
  by_cases h1 : idx ≥ (s.tasks.filter (fun t => t.stack_id == get_current_stack_id s)).length
  · rw [if_pos h1] at hk
    simp at hk
  · rw [if_neg h1] at hk
    cases hres : task_index_to_task_id s (get_current_stack_id s) idx with
    | error e => rw [hres] at hk; simp at hk
    | ok task_id =>
      rw [hres] at hk
      dsimp only at hk
      cases hfind : s.tasks.find?
          (fun t => t.stack_id == get_current_stack_id s && t.id == task_id) with
      | none => rw [hfind] at hk; simp at hk
      | some trow =>
        rw [hfind] at hk
        simp only [Except.ok.injEq, Prod.mk.injEq] at hk
        obtain ⟨htext, hs'⟩ := hk
        refine ⟨task_id, rfl, ?_, ?_, ?_⟩
        · rw [← hs']
        · intro r hr
          rw [← hs'] at hr
          simp only [cascade_reminders, List.mem_filter, Bool.not_eq_eq_eq_not,
            Bool.not_true, beq_eq_false_iff_ne, ne_eq] at hr
          exact hr.2
        · intro rid hrid
          unfold trigger_reminder
          have hnone : s'.reminders.find? (fun r => r.id == rid) = none := by
            rw [List.find?_eq_none]
            intro r hr
            rw [← hs'] at hr
            simp only [cascade_reminders, List.mem_filter, Bool.not_eq_eq_eq_not,
              Bool.not_true, beq_eq_false_iff_ne, ne_eq] at hr
            simp only [beq_iff_eq]
            intro hid
            exact hr.2 (hrid r hr.1 hid)
          rw [hnone]

/-- C4 witness: on the concrete one-task, one-reminder store, firing `"r1"` after
the kill yields the no-rows error. -/
theorem C4_witness :
    trigger_reminder exC4_killed "r1" =
      Except.error (AppError.Sqlite SqliteError.QueryReturnedNoRows) := by
  obtain ⟨tid, h1, h2, h3, h4⟩ :=
    C4_kill_cascades_then_trigger_errors exC4 0 "t" exC4_killed rfl
  have htid : tid = 1 := by
    have : task_index_to_task_id exC4 (get_current_stack_id exC4) 0 = Except.ok 1 := rfl
    rw [this] at h1
    exact (Except.ok.inj h1).symm
  subst htid
  exact h4 "r1" (by decide)

/-- C7: when the task index resolves and the delay spec parses, a spawn failure
makes `remind_me` return the spawn `Environment` error with no store mutation
(the reminder row inserted inside the exclusive transaction does not persist),
and an `ok` outcome — committing the new reminder row — happens exactly when the
spawn succeeded. -/
theorem C7_remind_me_spawn_failure_rolls_back (s : Store) (task_index : Nat)
    (reminder_string : String) (reminder_id : String) (task_id : Nat) (delay : Nat)
    (hresolve : task_index_to_task_id s (get_current_stack_id s) task_index
      = Except.ok task_id)
    (hparse : parse_delay_spec_into_seconds reminder_string = DelayParseOutcome.ok delay) :
    remind_me s task_index reminder_string reminder_id true false =
      RemindOutcome.err (AppError.Environment "unable to spawn reminder process") ∧
    remind_me s task_index reminder_string reminder_id true true =
      RemindOutcome.ok { s with
        reminders := s.reminders ++
          [{ id := reminder_id, delay := delay, task_id := task_id }] } ∧
    (∀ spawn_ok s', remind_me s task_index reminder_string reminder_id true spawn_ok
      = RemindOutcome.ok s' → spawn_ok = true) := by
  refine ⟨?_, ?_, ?_⟩
  · unfold remind_me
    rw [hresolve, hparse]
    rfl
  · unfold remind_me
    rw [hresolve, hparse]
    rfl
  · intro spawn_ok s' hok
    unfold remind_me at hok
    rw [hresolve, hparse] at hok
    cases spawn_ok with
    | true => rfl
    | false => simp at hok

/-- C7 witness: on the concrete two-task store, a spawn failure for
`remind_me 0 "5s"` surfaces the spawn error (and writes nothing). -/
theorem C7_witness :
    remind_me exC3 0 "5s" "rid-1" true false =
      RemindOutcome.err (AppError.Environment "unable to spawn reminder process") :=
  (C7_remind_me_spawn_failure_rolls_back exC3 0 "5s" "rid-1" 1 5 rfl rfl).1

/-- `SELECT task_order FROM tasks WHERE stack_id = ? AND id = ?` (a `query_row`,
erroring with `QueryReturnedNoRows` on an empty result). -/
def getTaskOrder (s : Store) (stack_id : Nat) (task_id : Nat) : Except AppError Int :=
  match s.tasks.find? (fun t => t.stack_id == stack_id && t.id == task_id) with
  | none => .error (AppError.Sqlite SqliteError.QueryReturnedNoRows)
  | some t => .ok t.task_order

/-- `UPDATE tasks SET task_order = ? WHERE id = ?` (no stack filter, as in the
source). -/
def setTaskOrder (tasks : List Task) (task_id : Nat) (ord : Int) : List Task :=
  tasks.map (fun t => if t.id == task_id then { t with task_order := ord } else t)

/-- `swap_tasks` from `commands.rs`: validates both 0-based positions against the
current stack's task count (one invalid → `NoSuchTask` naming the larger, both →
`NoSuchTasks`), resolves the smaller and larger positions to task ids, reads both
orders, and in one transaction writes each task's order to the other's. -/
def swap_tasks (s : Store) (idx1 idx2 : Nat) : Except AppError Store :=
  let current_stack_id := get_current_stack_id s
  let task_count := (s.tasks.filter (fun t => t.stack_id == current_stack_id)).length
  if idx1 ≥ task_count then
    if idx2 ≥ task_count then
      .error (AppError.Task (TaskError.NoSuchTasks idx1 idx2))
    else
      .error (AppError.Task (TaskError.NoSuchTask (max idx1 idx2)))
  else if idx2 ≥ task_count then
    .error (AppError.Task (TaskError.NoSuchTask (max idx1 idx2)))
  else
    match task_index_to_task_id s current_stack_id (min idx1 idx2) with
    | .error e => .error e
    | .ok min_id =>
      match task_index_to_task_id s current_stack_id (max idx1 idx2) with
      | .error e => .error e
      | .ok max_id =>
        match getTaskOrder s current_stack_id min_id with
        | .error e => .error e
        | .ok min_order =>
          match getTaskOrder s current_stack_id max_id with
          | .error e => .error e
          | .ok max_order =>
            .ok { s with
              tasks := setTaskOrder (setTaskOrder s.tasks min_id max_order) max_id min_order }

/-- Strict version of `leOrd`. -/
def ltOrd (a b : Task) : Prop := a.task_order < b.task_order

instance : IsAntisymm Task ltOrd :=
  ⟨fun _ _ h h' => ((Int.lt_irrefl _) (Int.lt_trans h h')).elim⟩

theorem Task_eq_of_id {l : List Task} (hnodup : (l.map Task.id).Nodup) {x y : Task}
    (hx : x ∈ l) (hy : y ∈ l) (hxy : x.id = y.id) : x = y := by
  induction l with
  | nil => simp at hx
  | cons a rest ih =>
    simp only [List.map_cons, List.nodup_cons, List.mem_map] at hnodup
    rcases List.mem_cons.mp hx with rfl | hx' <;> rcases List.mem_cons.mp hy with rfl | hy'
    · rfl
    · exact absurd ⟨y, hy', hxy.symm⟩ hnodup.1
    · exact absurd ⟨x, hx', hxy⟩ hnodup.1
    · exact ih hnodup.2 hx' hy'

theorem find?_task {tasks : List Task} {cur : Nat} {A : Task}
    (hnodup : (tasks.map Task.id).Nodup) (hA : A ∈ tasks) (hstack : A.stack_id = cur) :
    tasks.find? (fun t => t.stack_id == cur && t.id == A.id) = some A := by
  induction tasks with
  | nil => simp at hA
  | cons a rest ih =>
    simp only [List.map_cons, List.nodup_cons, List.mem_map] at hnodup
    rw [List.find?_cons]
    cases hpa : (a.stack_id == cur && a.id == A.id) with
    | true =>
      simp only [Bool.and_eq_true, beq_iff_eq] at hpa
      have haA : a = A := by
        rcases List.mem_cons.mp hA with rfl | hA'
        · rfl
        · exact absurd ⟨A, hA', hpa.2.symm⟩ hnodup.1
      exact congrArg some haA
    | false =>
      have hAne : A ≠ a := by
        intro he
        subst he
        simp [hstack] at hpa
      have hA' : A ∈ rest := by
        rcases List.mem_cons.mp hA with rfl | hA'
        · exact absurd rfl hAne
        · exact hA'
      exact ih hnodup.2 hA'

theorem getElem?_append_length {α : Type} (l r : List α) (x : α) :
    (l ++ x :: r)[l.length]? = some x := by
  rw [List.getElem?_append_right (Nat.le_refl _)]
  simp

theorem perm_swap_middle {α : Type} (l₁ l₂ l₃ : List α) (x y : α) :
    (l₁ ++ (x :: (l₂ ++ (y :: l₃)))).Perm (l₁ ++ (y :: (l₂ ++ (x :: l₃)))) := by
  refine List.Perm.append_left l₁ ?_
  have p1 : (x :: (l₂ ++ (y :: l₃))).Perm (x :: (y :: (l₂ ++ l₃))) :=
    List.Perm.cons x List.perm_middle
  have p2 : (x :: (y :: (l₂ ++ l₃))).Perm (y :: (x :: (l₂ ++ l₃))) :=
    List.Perm.swap y x (l₂ ++ l₃)
  have p3 : (y :: (x :: (l₂ ++ l₃))).Perm (y :: (l₂ ++ (x :: l₃))) :=
    List.Perm.cons y List.perm_middle.symm
  exact (p1.trans p2).trans p3

theorem pairwise_decomp_facts {α : Type} {R : α → α → Prop} {l₁ l₂ l₃ : List α} {A B : α}
    (h : (l₁ ++ (A :: (l₂ ++ (B :: l₃)))).Pairwise R) :
    R A B ∧ (∀ x ∈ l₁, R x A ∧ R x B) ∧ (∀ x ∈ l₂, R A x ∧ R x B) ∧
      (∀ x ∈ l₃, R A x ∧ R B x) := by
  rcases List.pairwise_append.mp h with ⟨h1, h2, h3⟩
  rcases List.pairwise_cons.mp h2 with ⟨h4, h5⟩
  rcases List.pairwise_append.mp h5 with ⟨h6, h7, h8⟩
  rcases List.pairwise_cons.mp h7 with ⟨h9, h10⟩
  refine ⟨h4 B (by simp), ?_, ?_, ?_⟩
  · intro x hx
    exact ⟨h3 x hx A (by simp), h3 x hx B (by simp)⟩
  · intro x hx
    exact ⟨h4 x (List.mem_append_left _ hx), h8 x hx B (List.mem_cons_self _ _)⟩
  · intro x hx
    exact ⟨h4 x (by simp [hx]), h9 x hx⟩

theorem list_decomp {α : Type} {L : List α} {mn mx : Nat} (hmn : mn < mx)
    (hmx : mx < L.length) :
    ∃ l₁ A l₂ B l₃,
      L = l₁ ++ (A :: (l₂ ++ (B :: l₃))) ∧
      l₁.length = mn ∧
      l₁.length + 1 + l₂.length = mx ∧
      L[mn]? = some A ∧
      L[mx]? = some B := by
  have hmn' : mn < L.length := Nat.lt_trans hmn hmx
  have hmntake : mn < (L.take mx).length := by
    rw [List.length_take]
    omega
  have hX : L.take mx =
      L.take mn ++ ((L.take mx).get ⟨mn, hmntake⟩ :: (L.take mx).drop (mn + 1)) := by
    conv_lhs => rw [← List.take_append_drop mn (L.take mx)]
    rw [List.drop_eq_getElem_cons hmntake, List.take_take]
    have hmin : min mn mx = mn := by omega
    rw [hmin, List.get_eq_getElem]
  refine ⟨L.take mn, (L.take mx).get ⟨mn, hmntake⟩, (L.take mx).drop (mn + 1),
    L.get ⟨mx, hmx⟩, L.drop (mx + 1), ?_, ?_, ?_, ?_, ?_⟩
  · conv_lhs => rw [← List.take_append_drop mx L, List.drop_eq_getElem_cons hmx, hX]
    simp [List.append_assoc]
  · rw [List.length_take]
    omega
  · simp only [List.length_take, List.length_drop]
    omega
  · rw [List.getElem?_eq_getElem hmn']
    congr 1
    rw [List.get_eq_getElem, List.getElem_take]
  · rw [List.getElem?_eq_getElem hmx]
    rfl

theorem setTaskOrder_comp (l : List Task) (i j : Nat) (o1 o2 : Int) :
    setTaskOrder (setTaskOrder l i o1) j o2 =
      l.map (fun t =>
        if t.id == j then { t with task_order := o2 }
        else if t.id == i then { t with task_order := o1 }
        else t) := by
  unfold setTaskOrder
  rw [List.map_map]
  apply List.map_congr_left
  intro t _
  by_cases hi : (t.id == i) = true <;> by_cases hj : (t.id == j) = true <;>
    simp [Function.comp, hi, hj]

theorem pairwise_lt_of_sorted_of_orders_nodup {X : List Task}
    (hs : X.Pairwise leOrd) (hn : (X.map Task.task_order).Nodup) :
    X.Pairwise ltOrd := by
  have h1 : X.Pairwise (fun a b => a.task_order ≠ b.task_order) := List.pairwise_map.mp hn
  exact (hs.and h1).imp (fun hab => lt_of_le_of_ne hab.1 hab.2)

theorem filter_stack_map {f : Task → Task} (hf : ∀ t, (f t).stack_id = t.stack_id)
    (l : List Task) (sid : Nat) :
    (l.map f).filter (fun t => t.stack_id == sid) =
      (l.filter (fun t => t.stack_id == sid)).map f := by
  rw [List.filter_map]
  congr 1
  apply List.filter_congr
  intro t _
  simp [Function.comp, hf t]

theorem ranked_perm (s : Store) (sid : Nat) :
    (ranked s sid).Perm (s.tasks.filter (fun t => t.stack_id == sid)) :=
  List.perm_insertionSort leOrd _

theorem ranked_sorted (s : Store) (sid : Nat) : (ranked s sid).Pairwise leOrd :=
  List.sorted_insertionSort leOrd _

theorem ranked_length (s : Store) (sid : Nat) :
    (ranked s sid).length = (s.tasks.filter (fun t => t.stack_id == sid)).length :=
  (ranked_perm s sid).length_eq

theorem ranked_mem {s : Store} {sid : Nat} {t : Task} (h : t ∈ ranked s sid) :
    t ∈ s.tasks ∧ t.stack_id = sid := by
  have := (ranked_perm s sid).mem_iff.mp h
  simp only [List.mem_filter, beq_iff_eq] at this
  exact this

theorem ranked_ids_nodup {s : Store} (hids : (s.tasks.map Task.id).Nodup) (sid : Nat) :
    ((ranked s sid).map Task.id).Nodup := by
  have hsub : (s.tasks.filter (fun t => t.stack_id == sid)).Sublist s.tasks :=
    List.filter_sublist _
  have h1 : ((s.tasks.filter (fun t => t.stack_id == sid)).map Task.id).Nodup :=
    (hsub.map Task.id).nodup hids
  exact (((ranked_perm s sid).map Task.id).nodup_iff).mpr h1

theorem ranked_pairwise_lt {s : Store} (hord : DistinctOrders s) (sid : Nat) :
    (ranked s sid).Pairwise ltOrd := by
  have hF : (s.tasks.filter (fun t => t.stack_id == sid)).Pairwise
      (fun a b => a.stack_id = b.stack_id → a.task_order ≠ b.task_order) :=
    hord.filter _
  have hFne : (s.tasks.filter (fun t => t.stack_id == sid)).Pairwise
      (fun a b => a.task_order ≠ b.task_order) := by
    refine hF.imp_of_mem ?_
    intro a b ha hb hr
    simp only [List.mem_filter, beq_iff_eq] at ha hb
    exact hr (ha.2.trans hb.2.symm)
  have hLne : (ranked s sid).Pairwise (fun a b => a.task_order ≠ b.task_order) :=
    ((ranked_perm s sid).pairwise_iff (fun h => h.symm)).mpr hFne
  exact pairwise_lt_of_sorted_of_orders_nodup (ranked_sorted s sid)
    (List.pairwise_map.mpr hLne)

theorem task_index_to_task_id_eq {s : Store} {sid k : Nat} {t : Task}
    (hk : (ranked s sid)[k]? = some t)
    (hcount : k < (s.tasks.filter (fun u => u.stack_id == sid)).length) :
    task_index_to_task_id s sid k = Except.ok t.id := by
  unfold task_index_to_task_id
  rw [if_neg (by omega)]
  rw [hk]

theorem swap_tasks_unfold (s : Store) (idx1 idx2 : Nat) (i1 i2 : Nat) (o1 o2 : Int)
    (h1 : ¬ idx1 ≥ (s.tasks.filter (fun t => t.stack_id == get_current_stack_id s)).length)
    (h2 : ¬ idx2 ≥ (s.tasks.filter (fun t => t.stack_id == get_current_stack_id s)).length)
    (hA : task_index_to_task_id s (get_current_stack_id s) (min idx1 idx2) = Except.ok i1)
    (hB : task_index_to_task_id s (get_current_stack_id s) (max idx1 idx2) = Except.ok i2)
    (ho1 : getTaskOrder s (get_current_stack_id s) i1 = Except.ok o1)
    (ho2 : getTaskOrder s (get_current_stack_id s) i2 = Except.ok o2) :
    swap_tasks s idx1 idx2 =
      Except.ok { s with tasks := setTaskOrder (setTaskOrder s.tasks i1 o2) i2 o1 } := by
  unfold swap_tasks
  rw [if_neg h1, if_neg h2, hA]
  dsimp only
  rw [hB]
  dsimp only
  rw [ho1]
  dsimp only
  rw [ho2]

theorem Task_eta (t : Task) : (Task.mk t.id t.task t.task_order t.stack_id) = t := rfl

/-- C9: on any store with unique task ids and per-stack distinct order keys,
`swap_tasks` at two valid positions of the current stack succeeds, exchanges
exactly the two resolved tasks' `task_order` values (ids, texts and stack
memberships untouched, every other row unchanged), and applying it a second
time restores the store exactly. -/
theorem C9_swap_tasks_involutive (s : Store) (idx1 idx2 : Nat)
    (hids : (s.tasks.map Task.id).Nodup)
    (hord : DistinctOrders s)
    (h1 : idx1 < (s.tasks.filter (fun t => t.stack_id == get_current_stack_id s)).length)
    (h2 : idx2 < (s.tasks.filter (fun t => t.stack_id == get_current_stack_id s)).length) :
    ∃ (s' : Store) (A B : Task),
      swap_tasks s idx1 idx2 = Except.ok s' ∧
      swap_tasks s' idx1 idx2 = Except.ok s ∧
      s'.tasks.map (fun t => (t.id, t.task, t.stack_id)) =
        s.tasks.map (fun t => (t.id, t.task, t.stack_id)) ∧
      s'.stack_rows = s.stack_rows ∧
      s'.reminders = s.reminders ∧
      s'.app_stack_id = s.app_stack_id ∧
      task_index_to_task_id s (get_current_stack_id s) (min idx1 idx2) = Except.ok A.id ∧
      task_index_to_task_id s (get_current_stack_id s) (max idx1 idx2) = Except.ok B.id ∧
      getTaskOrder s' (get_current_stack_id s) A.id = Except.ok B.task_order ∧
      getTaskOrder s' (get_current_stack_id s) B.id = Except.ok A.task_order ∧
      (∀ t ∈ s.tasks, t.id ≠ A.id → t.id ≠ B.id → t ∈ s'.tasks) := by
  rcases Nat.lt_or_ge (min idx1 idx2) (max idx1 idx2) with hlt | hge
  · -- two distinct positions
    have hmx_lt : max idx1 idx2 < (ranked s (get_current_stack_id s)).length := by
      rw [ranked_length]
      omega
    obtain ⟨l₁, A, l₂, B, l₃, hdecomp, hlen1, hlen2, hAget, hBget⟩ := list_decomp hlt hmx_lt
    have hAret := ranked_mem (List.getElem?_mem hAget)
    have hBret := ranked_mem (List.getElem?_mem hBget)
    have hlt_all := ranked_pairwise_lt hord (get_current_stack_id s)
    rw [hdecomp] at hlt_all
    have hlt_facts := pairwise_decomp_facts hlt_all
    have hidne : (ranked s (get_current_stack_id s)).Pairwise (fun a b => a.id ≠ b.id) :=
      List.pairwise_map.mp (ranked_ids_nodup hids (get_current_stack_id s))
    rw [hdecomp] at hidne
    have hid_facts := pairwise_decomp_facts hidne
    have hABid : A.id ≠ B.id := hid_facts.1
    set φ : Task → Task := fun t =>
      if t.id == B.id then { t with task_order := A.task_order }
      else if t.id == A.id then { t with task_order := B.task_order } else t with hφdef
    have hφA : φ A = { A with task_order := B.task_order } := by
      rw [hφdef]
      simp [hABid]
    have hφB : φ B = { B with task_order := A.task_order } := by
      rw [hφdef]
      simp
    have hφother : ∀ t : Task, t.id ≠ A.id → t.id ≠ B.id → φ t = t := by
      intro t htA htB
      rw [hφdef]
      simp [htA, htB]
    have hφstack : ∀ t : Task, (φ t).stack_id = t.stack_id := by
      intro t
      rw [hφdef]
      dsimp only
      split_ifs <;> rfl
    have hφid : ∀ t : Task, (φ t).id = t.id := by
      intro t
      rw [hφdef]
      dsimp only
      split_ifs <;> rfl
    have hφtask : ∀ t : Task, (φ t).task = t.task := by
      intro t
      rw [hφdef]
      dsimp only
      split_ifs <;> rfl
    have htasks1 : setTaskOrder (setTaskOrder s.tasks A.id B.task_order) B.id A.task_order
        = s.tasks.map φ := by
      rw [setTaskOrder_comp, hφdef]
    have hAres : task_index_to_task_id s (get_current_stack_id s) (min idx1 idx2)
        = Except.ok A.id :=
      task_index_to_task_id_eq hAget (by omega)
    have hBres : task_index_to_task_id s (get_current_stack_id s) (max idx1 idx2)
        = Except.ok B.id :=
      task_index_to_task_id_eq hBget (by omega)
    have hAfind := find?_task hids hAret.1 hAret.2
    have hBfind := find?_task hids hBret.1 hBret.2
    have hoA : getTaskOrder s (get_current_stack_id s) A.id = Except.ok A.task_order := by
      unfold getTaskOrder
      rw [hAfind]
    have hoB : getTaskOrder s (get_current_stack_id s) B.id = Except.ok B.task_order := by
      unfold getTaskOrder
      rw [hBfind]
    have hswap1 : swap_tasks s idx1 idx2 = Except.ok { s with tasks := s.tasks.map φ } := by
      rw [swap_tasks_unfold s idx1 idx2 A.id B.id A.task_order B.task_order (by omega) (by omega)
        hAres hBres hoA hoB, htasks1]
    have hids' : ((s.tasks.map φ).map Task.id).Nodup := by
      rw [List.map_map]
      have hcomp : Task.id ∘ φ = Task.id := funext (fun t => hφid t)
      rw [hcomp]
      exact hids
    have hmapφL : (ranked s (get_current_stack_id s)).map φ
        = l₁ ++ ({ A with task_order := B.task_order } ::
            (l₂ ++ ({ B with task_order := A.task_order } :: l₃))) := by
      rw [hdecomp]
      simp only [List.map_append, List.map_cons]
      have hl1 : l₁.map φ = l₁ := by
        have h' : l₁.map φ = l₁.map id :=
          List.map_congr_left
            (fun x hx => hφother x (hid_facts.2.1 x hx).1 (hid_facts.2.1 x hx).2)
        rw [h', List.map_id]
      have hl2 : l₂.map φ = l₂ := by
        have h' : l₂.map φ = l₂.map id :=
          List.map_congr_left
            (fun x hx => hφother x (Ne.symm (hid_facts.2.2.1 x hx).1) (hid_facts.2.2.1 x hx).2)
        rw [h', List.map_id]
      have hl3 : l₃.map φ = l₃ := by
        have h' : l₃.map φ = l₃.map id :=
          List.map_congr_left
            (fun x hx => hφother x (Ne.symm (hid_facts.2.2.2 x hx).1)
              (Ne.symm (hid_facts.2.2.2 x hx).2))
        rw [h', List.map_id]
      rw [hφA, hφB, hl1, hl2, hl3]
    have hM_perm :
        (l₁ ++ ({ B with task_order := A.task_order } ::
            (l₂ ++ ({ A with task_order := B.task_order } :: l₃)))).Perm
          ((ranked s (get_current_stack_id s)).map φ) := by
      rw [hmapφL]
      exact (perm_swap_middle l₁ l₂ l₃ { A with task_order := B.task_order }
        { B with task_order := A.task_order }).symm
    have hMorders :
        (l₁ ++ ({ B with task_order := A.task_order } ::
            (l₂ ++ ({ A with task_order := B.task_order } :: l₃)))).map Task.task_order
          = (ranked s (get_current_stack_id s)).map Task.task_order := by
      rw [hdecomp]
      simp [List.map_append]
    have hLor : ((ranked s (get_current_stack_id s)).map Task.task_order).Pairwise (· < ·) :=
      List.pairwise_map.mpr ((ranked_pairwise_lt hord (get_current_stack_id s)).imp (fun h => h))
    have hMlt :
        (l₁ ++ ({ B with task_order := A.task_order } ::
            (l₂ ++ ({ A with task_order := B.task_order } :: l₃)))).Pairwise ltOrd := by
      have h' := hLor
      rw [← hMorders] at h'
      exact (List.pairwise_map.mp h').imp (fun h => h)
    have hMo_nodup :
        ((l₁ ++ ({ B with task_order := A.task_order } ::
            (l₂ ++ ({ A with task_order := B.task_order } :: l₃)))).map Task.task_order).Nodup := by
      rw [hMorders]
      exact hLor.imp (fun hlt' => ne_of_lt hlt')
    have hfilter' : (s.tasks.map φ).filter (fun t => t.stack_id == get_current_stack_id s)
        = (s.tasks.filter (fun t => t.stack_id == get_current_stack_id s)).map φ :=
      filter_stack_map hφstack s.tasks (get_current_stack_id s)
    have hrank'_perm :
        (ranked { s with tasks := s.tasks.map φ } (get_current_stack_id s)).Perm
          (l₁ ++ ({ B with task_order := A.task_order } ::
            (l₂ ++ ({ A with task_order := B.task_order } :: l₃)))) := by
      have h0 := ranked_perm { s with tasks := s.tasks.map φ } (get_current_stack_id s)
      dsimp only at h0
      rw [hfilter'] at h0
      exact h0.trans ((((ranked_perm s (get_current_stack_id s)).map φ).symm).trans hM_perm.symm)
    have hrank'_lt :
        (ranked { s with tasks := s.tasks.map φ } (get_current_stack_id s)).Pairwise ltOrd := by
      refine pairwise_lt_of_sorted_of_orders_nodup
        (ranked_sorted { s with tasks := s.tasks.map φ } (get_current_stack_id s)) ?_
      have hp := hrank'_perm.map Task.task_order
      exact hp.nodup_iff.mpr hMo_nodup
    have hrank' : ranked { s with tasks := s.tasks.map φ } (get_current_stack_id s)
        = l₁ ++ ({ B with task_order := A.task_order } ::
            (l₂ ++ ({ A with task_order := B.task_order } :: l₃))) :=
      List.eq_of_perm_of_sorted hrank'_perm hrank'_lt hMlt
    have hM_mn :
        (l₁ ++ ({ B with task_order := A.task_order } ::
          (l₂ ++ ({ A with task_order := B.task_order } :: l₃))))[min idx1 idx2]?
          = some { B with task_order := A.task_order } := by
      rw [← hlen1]
      exact getElem?_append_length l₁ _ _
    have hM_mx :
        (l₁ ++ ({ B with task_order := A.task_order } ::
          (l₂ ++ ({ A with task_order := B.task_order } :: l₃))))[max idx1 idx2]?
          = some { A with task_order := B.task_order } := by
      have hassoc :
          l₁ ++ ({ B with task_order := A.task_order } ::
            (l₂ ++ ({ A with task_order := B.task_order } :: l₃)))
            = (l₁ ++ ({ B with task_order := A.task_order } :: l₂)) ++
                ({ A with task_order := B.task_order } :: l₃) := by
        simp [List.append_assoc]
      have hlen' : (l₁ ++ ({ B with task_order := A.task_order } :: l₂)).length
          = max idx1 idx2 := by
        simp only [List.length_append, List.length_cons]
        omega
      rw [hassoc, ← hlen']
      exact getElem?_append_length _ _ _
    have hcnt' : ((s.tasks.map φ).filter (fun t => t.stack_id == get_current_stack_id s)).length
        = (s.tasks.filter (fun t => t.stack_id == get_current_stack_id s)).length := by
      rw [hfilter', List.length_map]
    have hA'res : task_index_to_task_id { s with tasks := s.tasks.map φ }
        (get_current_stack_id s) (min idx1 idx2) = Except.ok B.id := by
      have hk : (ranked { s with tasks := s.tasks.map φ } (get_current_stack_id s))[min idx1 idx2]?
          = some { B with task_order := A.task_order } := by
        rw [hrank']
        exact hM_mn
      have h := task_index_to_task_id_eq hk (by
        show min idx1 idx2 < ((s.tasks.map φ).filter
          (fun u => u.stack_id == get_current_stack_id s)).length
        rw [hcnt']
        omega)
      exact h
    have hB'res : task_index_to_task_id { s with tasks := s.tasks.map φ }
        (get_current_stack_id s) (max idx1 idx2) = Except.ok A.id := by
      have hk : (ranked { s with tasks := s.tasks.map φ } (get_current_stack_id s))[max idx1 idx2]?
          = some { A with task_order := B.task_order } := by
        rw [hrank']
        exact hM_mx
      have h := task_index_to_task_id_eq hk (by
        show max idx1 idx2 < ((s.tasks.map φ).filter
          (fun u => u.stack_id == get_current_stack_id s)).length
        rw [hcnt']
        omega)
      exact h
    have hBafind : (s.tasks.map φ).find?
        (fun t => t.stack_id == get_current_stack_id s && t.id == B.id)
          = some { B with task_order := A.task_order } := by
      have hmem : { B with task_order := A.task_order } ∈ s.tasks.map φ :=
        List.mem_map.mpr ⟨B, hBret.1, hφB⟩
      have h := find?_task hids' hmem hBret.2
      exact h
    have hAbfind : (s.tasks.map φ).find?
        (fun t => t.stack_id == get_current_stack_id s && t.id == A.id)
          = some { A with task_order := B.task_order } := by
      have hmem : { A with task_order := B.task_order } ∈ s.tasks.map φ :=
        List.mem_map.mpr ⟨A, hAret.1, hφA⟩
      have h := find?_task hids' hmem hAret.2
      exact h
    have hoBa : getTaskOrder { s with tasks := s.tasks.map φ } (get_current_stack_id s) B.id
        = Except.ok A.task_order := by
      unfold getTaskOrder
      dsimp only
      rw [hBafind]
    have hoAb : getTaskOrder { s with tasks := s.tasks.map φ } (get_current_stack_id s) A.id
        = Except.ok B.task_order := by
      unfold getTaskOrder
      dsimp only
      rw [hAbfind]
    have hback : setTaskOrder (setTaskOrder (s.tasks.map φ) B.id B.task_order) A.id A.task_order
        = s.tasks := by
      rw [setTaskOrder_comp, List.map_map]
      refine (List.map_congr_left ?_).trans (List.map_id s.tasks)
      intro t ht
      by_cases htA : t.id = A.id
      · have hteq : t = A := Task_eq_of_id hids ht hAret.1 htA
        subst hteq
        simp [Function.comp, hφA, hABid, Task_eta]
      · by_cases htB : t.id = B.id
        · have hteq : t = B := Task_eq_of_id hids ht hBret.1 htB
          subst hteq
          simp [Function.comp, hφB, Ne.symm hABid, Task_eta]
        · simp [Function.comp, hφother t htA htB, htA, htB]
    have hn1' : ¬ idx1 ≥ ((s.tasks.map φ).filter
        (fun t => t.stack_id == get_current_stack_id s)).length := by
      rw [hcnt']
      omega
    have hn2' : ¬ idx2 ≥ ((s.tasks.map φ).filter
        (fun t => t.stack_id == get_current_stack_id s)).length := by
      rw [hcnt']
      omega
    have hswap2 : swap_tasks { s with tasks := s.tasks.map φ } idx1 idx2 = Except.ok s := by
      have h := swap_tasks_unfold { s with tasks := s.tasks.map φ } idx1 idx2 B.id A.id
        A.task_order B.task_order hn1' hn2' hA'res hB'res hoBa hoAb
      rw [h]
      exact congrArg
        (fun ts => Except.ok (Store.mk s.stack_rows ts s.reminders s.app_stack_id s.next_task_id))
        hback
    refine ⟨{ s with tasks := s.tasks.map φ }, A, B, hswap1, hswap2, ?_, rfl, rfl, rfl,
      hAres, hBres, hoAb, hoBa, ?_⟩
    · show (s.tasks.map φ).map (fun t => (t.id, t.task, t.stack_id))
        = s.tasks.map (fun t => (t.id, t.task, t.stack_id))
      rw [List.map_map]
      exact List.map_congr_left
        (fun t _ => by simp [Function.comp, hφid t, hφtask t, hφstack t])
    · intro t ht htA htB
      exact List.mem_map.mpr ⟨t, ht, hφother t htA htB⟩
  · -- idx1 = idx2: the swap is a no-op in both directions
    have heq : idx1 = idx2 := by omega
    subst heq
    have hx : idx1 < (ranked s (get_current_stack_id s)).length := by
      rw [ranked_length]
      omega
    cases hAget : (ranked s (get_current_stack_id s))[idx1]? with
    | none =>
      rw [List.getElem?_eq_getElem hx] at hAget
      simp at hAget
    | some A =>
      have hAret := ranked_mem (List.getElem?_mem hAget)
      have hAres : task_index_to_task_id s (get_current_stack_id s) idx1 = Except.ok A.id :=
        task_index_to_task_id_eq hAget (by omega)
      have hAfind := find?_task hids hAret.1 hAret.2
      have hoA : getTaskOrder s (get_current_stack_id s) A.id = Except.ok A.task_order := by
        unfold getTaskOrder
        rw [hAfind]
      have hident : setTaskOrder (setTaskOrder s.tasks A.id A.task_order) A.id A.task_order
          = s.tasks := by
        rw [setTaskOrder_comp]
        refine (List.map_congr_left ?_).trans (List.map_id s.tasks)
        intro t ht
        by_cases htA : t.id = A.id
        · have hteq : t = A := Task_eq_of_id hids ht hAret.1 htA
          subst hteq
          simp [Task_eta]
        · simp [htA]
      have hswap : swap_tasks s idx1 idx1 = Except.ok s := by
        have h := swap_tasks_unfold s idx1 idx1 A.id A.id A.task_order A.task_order
          (by omega) (by omega)
          (by rw [Nat.min_self]; exact hAres) (by rw [Nat.max_self]; exact hAres) hoA hoA
        rw [h]
        exact congrArg
          (fun ts => Except.ok (Store.mk s.stack_rows ts s.reminders s.app_stack_id s.next_task_id))
          hident
      refine ⟨s, A, A, hswap, hswap, rfl, rfl, rfl, rfl,
        by rw [Nat.min_self]; exact hAres, by rw [Nat.max_self]; exact hAres, hoA, hoA,
        fun t ht _ _ => ht⟩

/-- Store used to exercise C9: three tasks in the default stack plus one task in
another stack. -/
def exC9 : Store :=
  { stack_rows := [⟨1, "default"⟩, ⟨2, "other"⟩],
    tasks := [⟨1, "a", 1, 1⟩, ⟨2, "b", 2, 1⟩, ⟨3, "c", 3, 1⟩, ⟨4, "d", 7, 2⟩],
    reminders := [],
    app_stack_id := 1,
    next_task_id := 5 }

/-- Image of `exC9` under the swap of positions 0 and 2: tasks 1 and 3 have
exchanged their `task_order` values. -/
def exC9_swapped : Store :=
  { stack_rows := [⟨1, "default"⟩, ⟨2, "other"⟩],
    tasks := [⟨1, "a", 3, 1⟩, ⟨2, "b", 2, 1⟩, ⟨3, "c", 1, 1⟩, ⟨4, "d", 7, 2⟩],
    reminders := [],
    app_stack_id := 1,
    next_task_id := 5 }

/-- C9 witness: swapping positions 0 and 2 of the concrete three-task stack
twice restores the store exactly (extracted by applying the involution theorem
at `exC9`). -/
theorem C9_witness :
    swap_tasks exC9 0 2 = Except.ok exC9_swapped ∧
    swap_tasks exC9_swapped 0 2 = Except.ok exC9 := by
  obtain ⟨s', A, B, hs1, hs2, _⟩ :=
    C9_swap_tasks_involutive exC9 0 2 (by decide) (by unfold DistinctOrders; decide)
      (by decide) (by decide)
  have hconc : swap_tasks exC9 0 2 = Except.ok exC9_swapped := by rfl
  have hs' : s' = exC9_swapped := by
    rw [hs1] at hconc
    exact Except.ok.inj hconc
  subst hs'
  exact ⟨hs1, hs2⟩

end Yakstack
